import Mathlib

/-!
Shallow embedding of the `EncryptedPolls` Solidity contract
(multi-option polling with FHE-encrypted votes and a two-phase
public-decryption reveal), together with proofs about it.

Storage mappings are modelled as total functions with the EVM's
zero-value default; `revert` is modelled by `Except`: an operation
that fails returns `.error e` and, at the transaction level
(`applyOp`), leaves the state unchanged, mirroring EVM rollback.
The FHE coprocessor (`FHE.fromExternal`, `FHE.toBytes32`,
`FHE.checkSignatures`) is external to the contract and is modelled
as an abstract environment `FHEEnv` of pure functions.
-/

namespace EncryptedPolls

/-- The contract's declared custom errors, plus `ChoiceOutOfBounds`
which models the `require(choice < optionCount, "Choice out of bounds")`
revert inside the decode loop, and with `ProofVerificationFailed`
modelling the revert raised when `FHE.checkSignatures` rejects
the supplied bundle and proof. -/
inductive Err where
  | InvalidPoll
  | InvalidOptionCount
  | InvalidSchedule
  | PollNotActive
  | AlreadyVoted
  | PollNotClosed
  | AlreadyFinalized
  | IncompleteVotes
  | AlreadyRequested
  | NotRequested
  | InvalidChoiceCount
  | ProofVerificationFailed
  | ChoiceOutOfBounds
  deriving DecidableEq, Repr

/-- The contract's events.  Byte strings (`bytes32` handles, proofs,
calldata) are modelled as `Nat` identifiers or `List Nat` byte lists. -/
inductive Event where
  | PollCreated (pollId creator optionCount startTime endTime : Nat)
  | VoteCast (pollId voteId voter : Nat)
  | PollRevealRequested (pollId : Nat) (handles : List Nat)
  | TallyFinalized (pollId : Nat) (counts : List Nat) (totalVotes : Nat)
  deriving DecidableEq, Repr

/-- `struct Poll`.  Addresses and timestamps are `Nat`
(the zero address is `0`). -/
structure Poll where
  creator : Nat
  question : String
  options : List String
  startTime : Nat
  endTime : Nat
  finalized : Bool
  voteCount : Nat
  revealRequested : Bool
  deriving DecidableEq, Repr

/-- `struct Vote`: voter address and the internal `euint8` ciphertext
handle obtained from the coprocessor. -/
structure Vote where
  voter : Nat
  encryptedChoice : Nat
  deriving DecidableEq, Repr

/-- `struct Tally`: per-option counts plus the decryption proof that
justified them. -/
structure Tally where
  counts : List Nat
  proof : List Nat
  deriving DecidableEq, Repr

/-- The FHE coprocessor interface used by the contract:
`fromExternal` ingests an external ciphertext handle with its input
proof, `toBytes32` is the canonical `bytes32` identifier of a handle,
and `checkSignatures` decides whether a cleartext bundle plus
decryption proof is an authentic decryption of exactly the given
ordered handle list. -/
structure FHEEnv where
  fromExternal : Nat → List Nat → Nat
  toBytes32 : Nat → Nat
  checkSignatures : List Nat → List Nat → List Nat → Bool

/-- Zero-initialized `Poll`, the mapping default (`creator = 0`
marks "no such poll" throughout the contract). -/
def emptyPoll : Poll :=
  { creator := 0, question := "", options := [], startTime := 0, endTime := 0,
    finalized := false, voteCount := 0, revealRequested := false }

/-- Zero-initialized `Vote` (mapping default). -/
def emptyVote : Vote := { voter := 0, encryptedChoice := 0 }

/-- Zero-initialized `Tally` (mapping default). -/
def emptyTally : Tally := { counts := [], proof := [] }

/-- The contract's storage, plus the coprocessor-side ACL state the
contract drives (`pubDecryptable`, `allowed`, `allowedContract`) and
the emitted event log. -/
structure CState where
  nextPollId : Nat
  polls : Nat → Poll
  pollVotes : Nat → Nat → Vote
  hasVoted : Nat → Nat → Bool
  tallies : Nat → Tally
  pubDecryptable : Nat → Bool
  allowed : Nat → Nat → Bool
  allowedContract : Nat → Bool
  events : List Event

/-- State right after the constructor: `nextPollId = 1`, all
mappings at their zero defaults. -/
def initState : CState :=
  { nextPollId := 1
    polls := fun _ => emptyPoll
    pollVotes := fun _ _ => emptyVote
    hasVoted := fun _ _ => false
    tallies := fun _ => emptyTally
    pubDecryptable := fun _ => false
    allowed := fun _ _ => false
    allowedContract := fun _ => false
    events := [] }

/-- `createPoll(question, optionLabels, startTime, endTime)` called by
`sender` at block time `now`.  Returns the updated state and the
allocated poll id. -/
def createPoll (s : CState) (sender : Nat) (question : String)
    (optionLabels : List String) (startTime endTime now : Nat) :
    Except Err (CState × Nat) :=
  if optionLabels.length < 2 then .error .InvalidOptionCount
  else if endTime ≤ startTime ∨ endTime ≤ now then .error .InvalidSchedule
  else
    let pollId := s.nextPollId
    let poll : Poll :=
      { creator := sender, question := question, options := optionLabels,
        startTime := startTime, endTime := endTime,
        finalized := false, voteCount := 0, revealRequested := false }
    .ok ({ s with
            nextPollId := pollId + 1
            polls := Function.update s.polls pollId poll
            events := s.events ++
              [.PollCreated pollId sender optionLabels.length startTime endTime] },
         pollId)

/-- `castVote(pollId, encryptedChoiceHandle, inputProof)` called by
`sender` at block time `now`. -/
def castVote (env : FHEEnv) (s : CState) (sender pollId : Nat)
    (encryptedChoiceHandle : Nat) (inputProof : List Nat) (now : Nat) :
    Except Err CState :=
  let poll := s.polls pollId
  if poll.creator = 0 then .error .InvalidPoll
  else if now < poll.startTime ∨ poll.endTime < now then .error .PollNotActive
  else if s.hasVoted pollId sender then .error .AlreadyVoted
  else
    let voteId := poll.voteCount + 1
    let enc := env.fromExternal encryptedChoiceHandle inputProof
    .ok { s with
            polls := Function.update s.polls pollId { poll with voteCount := voteId }
            hasVoted := Function.update s.hasVoted pollId
              (Function.update (s.hasVoted pollId) sender true)
            pollVotes := Function.update s.pollVotes pollId
              (Function.update (s.pollVotes pollId) voteId
                { voter := sender, encryptedChoice := enc })
            allowed := Function.update s.allowed enc
              (Function.update (s.allowed enc) sender true)
            allowedContract := Function.update s.allowedContract enc true
            events := s.events ++ [.VoteCast pollId voteId sender] }

/-- The ordered identifier list of a poll's votes: for
`voteId = 1 .. voteCount` in ascending order, the canonical `bytes32`
identifier of that vote's ciphertext handle.  This is exactly the
`handles` array built both by `requestPollReveal` and (again) by
`resolvePollCallback`. -/
def handlesOf (env : FHEEnv) (s : CState) (pollId : Nat) : List Nat :=
  (List.range (s.polls pollId).voteCount).map
    (fun k => env.toBytes32 (s.pollVotes pollId (k + 1)).encryptedChoice)

/-- `requestPollReveal(pollId)` at block time `now`.  On success it
marks every vote's ciphertext handle publicly decryptable (the loop
runs voteId 1..voteCount in ascending order; its net effect on the
coprocessor ACL is the pointwise union recorded here), records the
identifier list, sets `revealRequested`, and emits the list. -/
def requestPollReveal (env : FHEEnv) (s : CState) (pollId now : Nat) :
    Except Err (CState × List Nat) :=
  let poll := s.polls pollId
  if poll.creator = 0 then .error .InvalidPoll
  else if now < poll.endTime then .error .PollNotClosed
  else if poll.finalized then .error .AlreadyFinalized
  else if poll.revealRequested then .error .AlreadyRequested
  else if poll.voteCount = 0 then .error .IncompleteVotes
  else
    let handles := handlesOf env s pollId
    .ok ({ s with
            polls := Function.update s.polls pollId { poll with revealRequested := true }
            pubDecryptable := fun h =>
              s.pubDecryptable h ||
                (List.range poll.voteCount).any
                  (fun k => (s.pollVotes pollId (k + 1)).encryptedChoice == h)
            events := s.events ++ [.PollRevealRequested pollId handles] },
         handles)

/-- The choice read from slot `i` of the cleartext bundle: the
assembly loads 32 bytes at offset `i * 32` and masks with `0xff`,
i.e. it takes the byte at index `i * 32 + 31`; a calldata read past
the end of the supplied bytes yields zero. -/
def slotChoice (bytes : List Nat) (i : Nat) : Nat :=
  bytes.getD (32 * i + 31) 0 % 256

/-- The choices read from `n` consecutive slots starting at slot `i`. -/
def choicesFrom (bytes : List Nat) : Nat → Nat → List Nat
  | _, 0 => []
  | i, n + 1 => slotChoice bytes i :: choicesFrom bytes (i + 1) n

/-- `counts[choice] += 1`. -/
def bumpCount (counts : List Nat) (c : Nat) : List Nat :=
  counts.set c (counts.getD c 0 + 1)

/-- The decode loop of `resolvePollCallback`: starting at slot `i`
with `n` slots left and accumulated `counts`, read each slot's low
byte, revert with `ChoiceOutOfBounds` if it is `≥ optionCount`,
else increment that option's count. -/
def decodeLoop (bytes : List Nat) (optionCount : Nat) :
    Nat → Nat → List Nat → Except Err (List Nat)
  | _, 0, counts => .ok counts
  | i, n + 1, counts =>
    let choice := slotChoice bytes i
    if choice < optionCount then
      decodeLoop bytes optionCount (i + 1) n (bumpCount counts choice)
    else .error .ChoiceOutOfBounds

/-- The full decode of a cleartext bundle: `voteCount` fixed 32-byte
slots read from offset 0, tallied into `optionCount` counters that
start at zero. -/
def decodeCounts (bytes : List Nat) (voteCount optionCount : Nat) :
    Except Err (List Nat) :=
  decodeLoop bytes optionCount 0 voteCount (List.replicate optionCount 0)

/-- `resolvePollCallback(pollId, abiEncodedChoices, decryptionProof)`:
guards, recompute the handle list, verify the decryption proof
against it, decode, then finalize and store the tally. -/
def resolvePollCallback (env : FHEEnv) (s : CState) (pollId : Nat)
    (abiEncodedChoices decryptionProof : List Nat) : Except Err CState :=
  let poll := s.polls pollId
  if poll.creator = 0 then .error .InvalidPoll
  else if poll.revealRequested = false then .error .NotRequested
  else if poll.finalized then .error .AlreadyFinalized
  else
    let handles := handlesOf env s pollId
    if env.checkSignatures handles abiEncodedChoices decryptionProof = false then
      .error .ProofVerificationFailed
    else
      match decodeCounts abiEncodedChoices poll.voteCount poll.options.length with
      | .error e => .error e
      | .ok counts =>
        .ok { s with
                polls := Function.update s.polls pollId { poll with finalized := true }
                tallies := Function.update s.tallies pollId
                  { counts := counts, proof := decryptionProof }
                events := s.events ++ [.TallyFinalized pollId counts poll.voteCount] }

/-- `getPoll(pollId)`: a view function; returns the stored record
(the zero record, with `creator = 0`, when no poll with that id
exists). -/
def getPoll (s : CState) (pollId : Nat) : Poll := s.polls pollId

/-- The contract's "poll exists" test: `creator != address(0)`. -/
def pollExists (s : CState) (pollId : Nat) : Bool :=
  (s.polls pollId).creator != 0

/-- One external transaction against the contract. -/
inductive Op where
  | createPoll (sender : Nat) (question : String) (optionLabels : List String)
      (startTime endTime : Nat)
  | castVote (sender pollId encryptedChoiceHandle : Nat) (inputProof : List Nat)
  | requestPollReveal (pollId : Nat)
  | resolvePollCallback (pollId : Nat) (abiEncodedChoices decryptionProof : List Nat)

/-- Transaction-level semantics at block time `now`: a reverting call
(`.error`) rolls every storage write back, leaving the state as it
was. -/
def applyOp (env : FHEEnv) (now : Nat) (s : CState) : Op → CState
  | .createPoll sender q opts st et =>
    match createPoll s sender q opts st et now with
    | .ok (s', _) => s'
    | .error _ => s
  | .castVote sender pollId h p =>
    match castVote env s sender pollId h p now with
    | .ok s' => s'
    | .error _ => s
  | .requestPollReveal pollId =>
    match requestPollReveal env s pollId now with
    | .ok (s', _) => s'
    | .error _ => s
  | .resolvePollCallback pollId b p =>
    match resolvePollCallback env s pollId b p with
    | .ok s' => s'
    | .error _ => s

/-- Run a list of timestamped transactions in order. -/
def run (env : FHEEnv) (s : CState) : List (Nat × Op) → CState
  | [] => s
  | (t, op) :: rest => run env (applyOp env t s op) rest

/-- `isOk` test on `Except`. -/
def isOkE {α : Type} : Except Err α → Bool
  | .ok _ => true
  | .error _ => false

/-- Build a cleartext bundle from a list of choices: one 32-byte
zero-padded slot per choice, the choice in the low-order byte. -/
def slotBytes (vals : List Nat) : List Nat :=
  (vals.map (fun v => List.replicate 31 0 ++ [v])).flatten

/-- A 32-byte big-endian word, as the ABI encodes a `uint256`; the
length prefix of a `bytes` value is one such word, with its
low-order byte at index 31. -/
def abiWord (n : Nat) : List Nat :=
  (List.range 32).map (fun k => n / 256 ^ (31 - k) % 256)

/-- The byte region the decode loop actually reads: the assembly
does `calldataload(abiEncodedChoices.offset + 32 * i)`, which past
the end of the `abiEncodedChoices` slice continues into whatever
calldata follows it (`trailing`), and yields zero only past the end
of the entire calldata — which is what the `getD _ 0` default of
`slotChoice` models on this combined region. -/
def wireBytes (bundle trailing : List Nat) : List Nat := bundle ++ trailing

/-- The trailing calldata when the caller lays out `decryptionProof`
immediately after the bundle slice (the canonical ABI encoding of
`resolvePollCallback`'s arguments): the proof's 32-byte length word,
the proof bytes, and zero padding to a word boundary. -/
def proofTail (pr : List Nat) : List Nat :=
  abiWord pr.length ++ pr ++ List.replicate ((32 - pr.length % 32) % 32) 0

/-- A concrete coprocessor environment for concrete runs: handles
ingest as themselves, identifiers are the handles, and every
decryption proof verifies. -/
def env0 : FHEEnv :=
  { fromExternal := fun h _ => h
    toBytes32 := fun h => h
    checkSignatures := fun _ _ _ => true }

/-- A concrete environment whose signature check always rejects. -/
def envNoSig : FHEEnv :=
  { env0 with checkSignatures := fun _ _ _ => false }

/-- Trace: create poll 1 (options "A"/"B", window [0,10]) at time 0,
then voter 2 casts a vote (handle 7) at time 5. -/
def opsVoted : List (Nat × Op) :=
  [(0, .createPoll 1 "Q" ["A", "B"] 0 10),
   (5, .castVote 2 1 7 [])]

/-- State after `opsVoted`: poll 1 has one vote. -/
def sVoted : CState := run env0 initState opsVoted

/-- `opsVoted`, then `requestPollReveal` at the boundary instant
`now = endTime = 10` (the close check `now >= endTime` admits it). -/
def opsRevealed : List (Nat × Op) :=
  opsVoted ++ [(10, .requestPollReveal 1)]

/-- State after `opsRevealed`: reveal requested for poll 1. -/
def sRevealed : CState := run env0 initState opsRevealed

/-- `opsRevealed`, then voter 3 casts a vote (handle 9) at the same
boundary instant `now = endTime = 10` (the voting window is
inclusive, so the vote is admitted after the reveal request). -/
def opsLateVote : List (Nat × Op) :=
  opsRevealed ++ [(10, .castVote 3 1 9 [])]

/-- State after `opsLateVote`. -/
def sLateVote : CState := run env0 initState opsLateVote

/-- A one-slot cleartext bundle encoding the single choice 0. -/
def bundle0 : List Nat := slotBytes [0]

/-- `opsRevealed`, then `resolvePollCallback` at time 10 with a
verifying bundle encoding [0]: poll 1 finalizes with tally [1, 0]. -/
def opsFinalized : List (Nat × Op) :=
  opsRevealed ++ [(10, .resolvePollCallback 1 bundle0 [])]

/-- State after `opsFinalized`: poll 1 is finalized. -/
def sFinalized : CState := run env0 initState opsFinalized

/-- `opsFinalized`, then voter 3 casts a vote at the boundary instant
`now = endTime = 10`: the vote is admitted although the poll is
already finalized. -/
def opsPostFinalVote : List (Nat × Op) :=
  opsFinalized ++ [(10, .castVote 3 1 9 [])]

/-- State after `opsPostFinalVote`. -/
def sPostFinalVote : CState := run env0 initState opsPostFinalVote

/-- Trace: poll 1 (window [0,10]) with two votes (voters 2 and 3,
handles 7 and 9), reveal requested at time 11, then resolved with an
empty cleartext bundle: both missing slots read as choice 0. -/
def opsShortBundle : List (Nat × Op) :=
  [(0, .createPoll 1 "Q" ["A", "B"] 0 10),
   (5, .castVote 2 1 7 []),
   (6, .castVote 3 1 9 []),
   (11, .requestPollReveal 1),
   (11, .resolvePollCallback 1 [] [])]

/-- State after `opsShortBundle`. -/
def sShortBundle : CState := run env0 initState opsShortBundle

/-- Trace: create poll 1 with no votes (window [0,10]). -/
def opsNoVotes : List (Nat × Op) :=
  [(0, .createPoll 1 "Q" ["A", "B"] 0 10)]

/-- State after `opsNoVotes`. -/
def sNoVotes : CState := run env0 initState opsNoVotes

/-- State after creating poll 1 (options "A"/"B", window [0,10])
at time 0 from the initial state. -/
def sCreated : CState := applyOp env0 0 initState (.createPoll 1 "Q" ["A", "B"] 0 10)

/-- `sVoted`, then voter 3 casts a second vote (handle 9) at time 6. -/
def sVoted2 : CState := applyOp env0 6 sVoted (.castVote 3 1 9 [])

/-- `sVoted`, then `requestPollReveal` at time 11 (strictly after
`endTime`). -/
def sReqLate : CState := applyOp env0 11 sVoted (.requestPollReveal 1)

/-- The state invariant maintained by every transaction: ids at or
above `nextPollId` are unallocated, a finalized poll has its reveal
requested, a requested poll has at least one vote, and a finalized
poll's stored tally has one counter per option. -/
structure Inv (s : CState) : Prop where
  one_le_next : 1 ≤ s.nextPollId
  fresh : ∀ p, s.nextPollId ≤ p → s.polls p = emptyPoll
  fin_req : ∀ p, (s.polls p).finalized = true → (s.polls p).revealRequested = true
  req_votes : ∀ p, (s.polls p).revealRequested = true → 1 ≤ (s.polls p).voteCount
  tally_len : ∀ p, (s.polls p).finalized = true →
    (s.tallies p).counts.length = (s.polls p).options.length

/-! ## Decoder lemmas -/

theorem bumpCount_length (counts : List Nat) (c : Nat) :
    (bumpCount counts c).length = counts.length :=
  List.length_set counts c _

theorem bumpCount_getD (counts : List Nat) (c0 c : Nat) (h : c0 < counts.length) :
    (bumpCount counts c0).getD c 0 =
      counts.getD c 0 + if c0 = c then 1 else 0 := by
  induction counts generalizing c0 c with
  | nil => simp at h
  | cons a tl ih =>
    cases c0 with
    | zero =>
      cases c with
      | zero => simp [bumpCount]
      | succ c => simp [bumpCount]
    | succ c0 =>
      cases c with
      | zero => simp [bumpCount]
      | succ c =>
        have htl : c0 < tl.length := by simpa using h
        have := ih c0 c htl
        simpa [bumpCount] using this

theorem bumpCount_sum (counts : List Nat) (c : Nat) (h : c < counts.length) :
    (bumpCount counts c).sum = counts.sum + 1 := by
  induction counts generalizing c with
  | nil => simp at h
  | cons a tl ih =>
    cases c with
    | zero => simp [bumpCount]; omega
    | succ c =>
      have htl : c < tl.length := by simpa using h
      have := ih c htl
      simp [bumpCount] at this ⊢
      omega

theorem choicesFrom_eq_map (bytes : List Nat) :
    ∀ n i, choicesFrom bytes i n =
      (List.range n).map (fun j => slotChoice bytes (i + j)) := by
  intro n
  induction n with
  | zero => intro i; simp [choicesFrom]
  | succ n ih =>
    intro i
    have hshift : (fun j => slotChoice bytes (i + j)) ∘ Nat.succ
        = fun j => slotChoice bytes (i + 1 + j) := by
      funext j
      simp only [Function.comp_apply]
      congr 1
      omega
    rw [List.range_succ_eq_map, List.map_cons, List.map_map, hshift, ← ih (i + 1)]
    simp [choicesFrom]

theorem choicesFrom_length (bytes : List Nat) (n i : Nat) :
    (choicesFrom bytes i n).length = n := by
  rw [choicesFrom_eq_map]; simp

/-- Everything a successful run of the decode loop guarantees:
the output has one counter per option, it counts exactly the `n`
slots consumed (so the total grows by `n`), every consumed slot was
in range, and each counter grew by the number of slots naming it. -/
theorem decodeLoop_ok_spec (bytes : List Nat) (oc : Nat) :
    ∀ n i counts out, counts.length = oc →
      decodeLoop bytes oc i n counts = .ok out →
      out.length = oc ∧ out.sum = counts.sum + n ∧
      (∀ x ∈ choicesFrom bytes i n, x < oc) ∧
      (∀ c, out.getD c 0 = counts.getD c 0 + (choicesFrom bytes i n).count c) := by
  intro n
  induction n with
  | zero =>
    intro i counts out hlen hok
    simp only [decodeLoop] at hok
    cases hok
    simp [choicesFrom, hlen]
  | succ n ih =>
    intro i counts out hlen hok
    simp only [decodeLoop] at hok
    by_cases hc : slotChoice bytes i < oc
    · rw [if_pos hc] at hok
      have hlen' : (bumpCount counts (slotChoice bytes i)).length = oc := by
        rw [bumpCount_length]; exact hlen
      obtain ⟨h1, h2, h3, h4⟩ := ih (i + 1) _ out hlen' hok
      have hcl : slotChoice bytes i < counts.length := by rw [hlen]; exact hc
      refine ⟨h1, ?_, ?_, ?_⟩
      · rw [h2, bumpCount_sum _ _ hcl]; omega
      · intro x hx
        simp only [choicesFrom, List.mem_cons] at hx
        rcases hx with rfl | hx
        · exact hc
        · exact h3 x hx
      · intro c
        rw [h4 c, bumpCount_getD _ _ _ hcl]
        simp only [choicesFrom, List.count_cons]
        by_cases hco : slotChoice bytes i = c <;> simp [hco] <;> omega
    · rw [if_neg hc] at hok
      cases hok

theorem decodeLoop_isOk (bytes : List Nat) (oc : Nat) :
    ∀ n i counts, (∀ x ∈ choicesFrom bytes i n, x < oc) →
      isOkE (decodeLoop bytes oc i n counts) = true := by
  intro n
  induction n with
  | zero => intro i counts _; simp [decodeLoop, isOkE]
  | succ n ih =>
    intro i counts hall
    have hc : slotChoice bytes i < oc :=
      hall _ (by simp [choicesFrom])
    simp only [decodeLoop, if_pos hc]
    exact ih (i + 1) _ (fun x hx => hall x (by simp [choicesFrom, hx]))

theorem decodeLoop_err (bytes : List Nat) (oc : Nat) :
    ∀ n i counts, (∃ x ∈ choicesFrom bytes i n, oc ≤ x) →
      decodeLoop bytes oc i n counts = .error .ChoiceOutOfBounds := by
  intro n
  induction n with
  | zero => intro i counts h; simp [choicesFrom] at h
  | succ n ih =>
    intro i counts h
    obtain ⟨x, hx, hgx⟩ := h
    simp only [choicesFrom, List.mem_cons] at hx
    by_cases hc : slotChoice bytes i < oc
    · rcases hx with rfl | hx
      · omega
      · simp only [decodeLoop, if_pos hc]
        exact ih (i + 1) _ ⟨x, hx, hgx⟩
    · simp only [decodeLoop, if_neg hc]

theorem decodeLoop_congr (b1 b2 : List Nat) (oc : Nat) :
    ∀ n i counts, choicesFrom b1 i n = choicesFrom b2 i n →
      decodeLoop b1 oc i n counts = decodeLoop b2 oc i n counts := by
  intro n
  induction n with
  | zero => intro i counts _; simp [decodeLoop]
  | succ n ih =>
    intro i counts heq
    simp only [choicesFrom, List.cons.injEq] at heq
    obtain ⟨hhead, htail⟩ := heq
    simp only [decodeLoop, hhead]
    by_cases hc : slotChoice b2 i < oc
    · rw [if_pos hc, if_pos hc]
      exact ih (i + 1) _ htail
    · rw [if_neg hc, if_neg hc]

/-- A slot entirely past the end of the bundle reads as choice 0. -/
theorem slotChoice_past_end (bytes : List Nat) (i : Nat)
    (h : bytes.length ≤ 32 * i + 31) : slotChoice bytes i = 0 := by
  unfold slotChoice
  rw [List.getD_eq_default _ _ h]

/-- A slot whose low byte lies below index `m` is unaffected by
truncating the bundle to its first `m` bytes. -/
theorem slotChoice_take (bytes : List Nat) (m i : Nat) (h : 32 * i + 31 < m) :
    slotChoice (bytes.take m) i = slotChoice bytes i := by
  unfold slotChoice
  rw [List.getD_eq_getElem?_getD, List.getD_eq_getElem?_getD,
    List.getElem?_take, if_pos h]

/-- The decode only ever reads the first `32 * voteCount` bytes. -/
theorem decodeCounts_take (bytes : List Nat) (vc oc : Nat) :
    decodeCounts bytes vc oc = decodeCounts (bytes.take (32 * vc)) vc oc := by
  unfold decodeCounts
  refine decodeLoop_congr bytes (bytes.take (32 * vc)) oc vc 0 _ ?_
  rw [choicesFrom_eq_map, choicesFrom_eq_map]
  refine List.map_congr_left ?_
  intro j hj
  rw [List.mem_range] at hj
  exact (slotChoice_take bytes (32 * vc) (0 + j) (by omega)).symm

/-! ## Operation inversion lemmas -/

/-- Field-wise description of a successful `createPoll`. -/
theorem createPoll_ok (s : CState) (sender : Nat) (q : String)
    (opts : List String) (st et now : Nat) (s' : CState) (pid : Nat)
    (hok : createPoll s sender q opts st et now = .ok (s', pid)) :
    2 ≤ opts.length ∧ st < et ∧ now < et ∧
    pid = s.nextPollId ∧
    s'.nextPollId = s.nextPollId + 1 ∧
    s'.polls pid = { creator := sender, question := q, options := opts,
                     startTime := st, endTime := et, finalized := false,
                     voteCount := 0, revealRequested := false } ∧
    (∀ p, p ≠ pid → s'.polls p = s.polls p) ∧
    s'.pollVotes = s.pollVotes ∧ s'.hasVoted = s.hasVoted ∧
    s'.tallies = s.tallies ∧ s'.pubDecryptable = s.pubDecryptable ∧
    s'.events = s.events ++ [.PollCreated pid sender opts.length st et] := by
  by_cases h1 : opts.length < 2
  · simp [createPoll, h1] at hok
  · by_cases h2 : et ≤ st ∨ et ≤ now
    · simp [createPoll, h1, h2] at hok
    · push_neg at h2
      simp only [createPoll, if_neg h1, if_neg (by push_neg; exact h2 :
        ¬(et ≤ st ∨ et ≤ now)), Except.ok.injEq, Prod.mk.injEq] at hok
      obtain ⟨hs, hp⟩ := hok
      subst hs
      subst hp
      refine ⟨by omega, h2.1, h2.2, rfl, rfl, ?_, ?_, rfl, rfl, rfl, rfl, rfl⟩
      · simp [Function.update_same]
      · intro p hp
        simp [Function.update_noteq hp]

/-- Field-wise description of a successful `castVote`. -/
theorem castVote_ok (env : FHEEnv) (s : CState) (sender pollId h : Nat)
    (pr : List Nat) (now : Nat) (s' : CState)
    (hok : castVote env s sender pollId h pr now = .ok s') :
    (s.polls pollId).creator ≠ 0 ∧
    (s.polls pollId).startTime ≤ now ∧ now ≤ (s.polls pollId).endTime ∧
    s.hasVoted pollId sender = false ∧
    s'.nextPollId = s.nextPollId ∧
    s'.polls pollId = { s.polls pollId with
                         voteCount := (s.polls pollId).voteCount + 1 } ∧
    (∀ p, p ≠ pollId → s'.polls p = s.polls p) ∧
    s'.hasVoted pollId sender = true ∧
    (∀ p a, p ≠ pollId ∨ a ≠ sender → s'.hasVoted p a = s.hasVoted p a) ∧
    s'.pollVotes pollId ((s.polls pollId).voteCount + 1) =
      { voter := sender, encryptedChoice := env.fromExternal h pr } ∧
    (∀ p v, p ≠ pollId ∨ v ≠ (s.polls pollId).voteCount + 1 →
      s'.pollVotes p v = s.pollVotes p v) ∧
    s'.tallies = s.tallies ∧ s'.pubDecryptable = s.pubDecryptable ∧
    s'.events = s.events ++
      [.VoteCast pollId ((s.polls pollId).voteCount + 1) sender] := by
  by_cases h1 : (s.polls pollId).creator = 0
  · simp [castVote, h1] at hok
  · by_cases h2 : now < (s.polls pollId).startTime ∨ (s.polls pollId).endTime < now
    · simp [castVote, h1, h2] at hok
    · by_cases h3 : s.hasVoted pollId sender
      · simp [castVote, h1, h2, h3] at hok
      · push_neg at h2
        simp only [castVote, if_neg h1, if_neg (by push_neg; exact h2 :
            ¬(now < (s.polls pollId).startTime ∨ (s.polls pollId).endTime < now)),
          Bool.not_eq_true] at hok
        rw [if_neg (by simp [h3])] at hok
        cases hok
        refine ⟨h1, h2.1, h2.2, by simpa using h3, rfl, ?_, ?_, ?_, ?_, ?_, ?_,
          rfl, rfl, rfl⟩
        · simp [Function.update_same]
        · intro p hp
          simp [Function.update_noteq hp]
        · simp [Function.update_same]
        · intro p a hpa
          rcases hpa with hp | ha
          · simp [Function.update_noteq hp]
          · by_cases hp : p = pollId
            · subst hp
              simp [Function.update_same, Function.update_noteq ha]
            · simp [Function.update_noteq hp]
        · simp [Function.update_same]
        · intro p v hpv
          rcases hpv with hp | hv
          · simp [Function.update_noteq hp]
          · by_cases hp : p = pollId
            · subst hp
              simp [Function.update_same, Function.update_noteq hv]
            · simp [Function.update_noteq hp]

/-- Field-wise description of a successful `requestPollReveal`. -/
theorem requestPollReveal_ok (env : FHEEnv) (s : CState) (pollId now : Nat)
    (s' : CState) (out : List Nat)
    (hok : requestPollReveal env s pollId now = .ok (s', out)) :
    (s.polls pollId).creator ≠ 0 ∧
    (s.polls pollId).endTime ≤ now ∧
    (s.polls pollId).finalized = false ∧
    (s.polls pollId).revealRequested = false ∧
    (s.polls pollId).voteCount ≠ 0 ∧
    out = handlesOf env s pollId ∧
    s'.nextPollId = s.nextPollId ∧
    s'.polls pollId = { s.polls pollId with revealRequested := true } ∧
    (∀ p, p ≠ pollId → s'.polls p = s.polls p) ∧
    s'.pollVotes = s.pollVotes ∧ s'.hasVoted = s.hasVoted ∧
    s'.tallies = s.tallies ∧
    (∀ h, s'.pubDecryptable h =
      (s.pubDecryptable h ||
        (List.range (s.polls pollId).voteCount).any
          (fun k => (s.pollVotes pollId (k + 1)).encryptedChoice == h))) ∧
    s'.events = s.events ++ [.PollRevealRequested pollId (handlesOf env s pollId)] := by
  simp only [requestPollReveal] at hok
  split_ifs at hok with h1 h2 h3 h4 h5 <;> cases hok
  refine ⟨h1, by omega, by simpa using h3, by simpa using h4, h5, rfl, rfl,
    ?_, ?_, rfl, rfl, rfl, fun h => rfl, rfl⟩
  · simp [Function.update_same]
  · intro p hp
    simp [Function.update_noteq hp]

/-- Field-wise description of a successful `resolvePollCallback`. -/
theorem resolvePollCallback_ok (env : FHEEnv) (s : CState) (pollId : Nat)
    (bytes dproof : List Nat) (s' : CState)
    (hok : resolvePollCallback env s pollId bytes dproof = .ok s') :
    (s.polls pollId).creator ≠ 0 ∧
    (s.polls pollId).revealRequested = true ∧
    (s.polls pollId).finalized = false ∧
    env.checkSignatures (handlesOf env s pollId) bytes dproof = true ∧
    ∃ counts,
      decodeCounts bytes (s.polls pollId).voteCount
        (s.polls pollId).options.length = .ok counts ∧
      s'.nextPollId = s.nextPollId ∧
      s'.polls pollId = { s.polls pollId with finalized := true } ∧
      (∀ p, p ≠ pollId → s'.polls p = s.polls p) ∧
      s'.pollVotes = s.pollVotes ∧ s'.hasVoted = s.hasVoted ∧
      s'.tallies pollId = { counts := counts, proof := dproof } ∧
      (∀ p, p ≠ pollId → s'.tallies p = s.tallies p) ∧
      s'.pubDecryptable = s.pubDecryptable ∧
      s'.events = s.events ++
        [.TallyFinalized pollId counts (s.polls pollId).voteCount] := by
  rcases hdec : decodeCounts bytes (s.polls pollId).voteCount
      (s.polls pollId).options.length with e | counts
  · simp only [resolvePollCallback, hdec] at hok
    split_ifs at hok
  · simp only [resolvePollCallback, hdec] at hok
    split_ifs at hok with h1 h2 h3 h4 <;> cases hok
    refine ⟨h1, by simpa using h2, by simpa using h3, by simpa using h4,
      counts, rfl, rfl, ?_, ?_, rfl, rfl, ?_, ?_, rfl, rfl⟩
    · simp [Function.update_same]
    · intro p hp
      simp [Function.update_noteq hp]
    · simp [Function.update_same]
    · intro p hp
      simp [Function.update_noteq hp]

/-- A reverting `createPoll` leaves the transaction-level state
unchanged. -/
theorem applyOp_createPoll_error (env : FHEEnv) (t : Nat) (s : CState)
    (sender : Nat) (q : String) (opts : List String) (st et : Nat) (e : Err)
    (herr : createPoll s sender q opts st et t = .error e) :
    applyOp env t s (.createPoll sender q opts st et) = s := by
  simp [applyOp, herr]

/-- A reverting `castVote` leaves the transaction-level state
unchanged. -/
theorem applyOp_castVote_error (env : FHEEnv) (t : Nat) (s : CState)
    (sender pollId h : Nat) (pr : List Nat) (e : Err)
    (herr : castVote env s sender pollId h pr t = .error e) :
    applyOp env t s (.castVote sender pollId h pr) = s := by
  simp [applyOp, herr]

/-- A reverting `requestPollReveal` leaves the transaction-level
state unchanged. -/
theorem applyOp_requestPollReveal_error (env : FHEEnv) (t : Nat) (s : CState)
    (pollId : Nat) (e : Err)
    (herr : requestPollReveal env s pollId t = .error e) :
    applyOp env t s (.requestPollReveal pollId) = s := by
  simp [applyOp, herr]

/-- A reverting `resolvePollCallback` leaves the transaction-level
state unchanged. -/
theorem applyOp_resolvePollCallback_error (env : FHEEnv) (t : Nat) (s : CState)
    (pollId : Nat) (bytes dproof : List Nat) (e : Err)
    (herr : resolvePollCallback env s pollId bytes dproof = .error e) :
    applyOp env t s (.resolvePollCallback pollId bytes dproof) = s := by
  simp [applyOp, herr]

/-! ## Full-decode corollaries -/

/-- What a successful `decodeCounts` guarantees: one counter per
option, total equal to `voteCount`, every slot in range, and each
counter equal to the number of slots naming that option. -/
theorem decodeCounts_ok_spec (bytes : List Nat) (vc oc : Nat) (counts : List Nat)
    (hok : decodeCounts bytes vc oc = .ok counts) :
    counts.length = oc ∧ counts.sum = vc ∧
    (∀ x ∈ choicesFrom bytes 0 vc, x < oc) ∧
    (∀ c, counts.getD c 0 = (choicesFrom bytes 0 vc).count c) := by
  have hspec := decodeLoop_ok_spec bytes oc vc 0 (List.replicate oc 0) counts
    (by simp) hok
  obtain ⟨h1, h2, h3, h4⟩ := hspec
  refine ⟨h1, by simpa using h2, h3, ?_⟩
  intro c
  have hc := h4 c
  have hrep : (List.replicate oc 0).getD c 0 = 0 := by
    rcases Nat.lt_or_ge c oc with hlt | hge
    · simp [List.getD_eq_getElem?_getD, List.getElem?_replicate, hlt]
    · exact List.getD_eq_default _ _ (by simpa using hge)
  rw [hrep] at hc
  simpa using hc

/-! ## Invariant preservation -/

/-- A poll with a nonzero creator has an allocated id. -/
theorem pollId_lt_next (s : CState) (pollId : Nat) (hInv : Inv s)
    (hc : (s.polls pollId).creator ≠ 0) : pollId < s.nextPollId := by
  by_contra hge
  push_neg at hge
  rw [hInv.fresh pollId hge] at hc
  simp [emptyPoll] at hc

/-- The constructor establishes the invariant. -/
theorem inv_init : Inv initState := by
  constructor
  · simp [initState]
  · intro p _; rfl
  · intro p hfin; simp [initState, emptyPoll] at hfin
  · intro p hreq; simp [initState, emptyPoll] at hreq
  · intro p hfin; simp [initState, emptyPoll] at hfin

/-- Every transaction preserves the invariant. -/
theorem inv_applyOp (env : FHEEnv) (now : Nat) (s : CState) (op : Op)
    (hInv : Inv s) : Inv (applyOp env now s op) := by
  cases op with
  | createPoll sender q opts st et =>
    rcases hc : createPoll s sender q opts st et now with e | sp
    · rw [applyOp_createPoll_error env now s sender q opts st et e hc]
      exact hInv
    · obtain ⟨s', pid⟩ := sp
      have happly : applyOp env now s (.createPoll sender q opts st et) = s' := by
        simp [applyOp, hc]
      obtain ⟨-, -, -, hpid, hnext, hpoll, hother, -, -, htal, -, -⟩ :=
        createPoll_ok s sender q opts st et now s' pid hc
      rw [happly]
      subst hpid
      constructor
      · rw [hnext]; omega
      · intro p hp
        rw [hnext] at hp
        rw [hother p (by omega)]
        exact hInv.fresh p (by omega)
      · intro p hfin
        by_cases hpp : p = s.nextPollId
        · subst hpp; rw [hpoll] at hfin; simp at hfin
        · rw [hother p hpp] at hfin ⊢; exact hInv.fin_req p hfin
      · intro p hreq
        by_cases hpp : p = s.nextPollId
        · subst hpp; rw [hpoll] at hreq; simp at hreq
        · rw [hother p hpp] at hreq ⊢; exact hInv.req_votes p hreq
      · intro p hfin
        by_cases hpp : p = s.nextPollId
        · subst hpp; rw [hpoll] at hfin; simp at hfin
        · rw [hother p hpp] at hfin
          rw [htal, hother p hpp]
          exact hInv.tally_len p hfin
  | castVote sender pollId h pr =>
    rcases hc : castVote env s sender pollId h pr now with e | s'
    · rw [applyOp_castVote_error env now s sender pollId h pr e hc]
      exact hInv
    · have happly : applyOp env now s (.castVote sender pollId h pr) = s' := by
        simp [applyOp, hc]
      obtain ⟨hcr, -, -, -, hnext, hpoll, hother, -, -, -, -, htal, -, -⟩ :=
        castVote_ok env s sender pollId h pr now s' hc
      have hlt := pollId_lt_next s pollId hInv hcr
      rw [happly]
      constructor
      · rw [hnext]; exact hInv.one_le_next
      · intro p hp
        rw [hnext] at hp
        rw [hother p (by omega)]
        exact hInv.fresh p hp
      · intro p hfin
        by_cases hpp : p = pollId
        · subst hpp; rw [hpoll] at hfin ⊢; simpa using hInv.fin_req p (by simpa using hfin)
        · rw [hother p hpp] at hfin ⊢; exact hInv.fin_req p hfin
      · intro p hreq
        by_cases hpp : p = pollId
        · subst hpp; rw [hpoll]; simp
        · rw [hother p hpp] at hreq ⊢; exact hInv.req_votes p hreq
      · intro p hfin
        rw [htal]
        by_cases hpp : p = pollId
        · subst hpp
          rw [hpoll] at hfin ⊢
          simpa using hInv.tally_len p (by simpa using hfin)
        · rw [hother p hpp] at hfin ⊢
          exact hInv.tally_len p hfin
  | requestPollReveal pollId =>
    rcases hc : requestPollReveal env s pollId now with e | sp
    · rw [applyOp_requestPollReveal_error env now s pollId e hc]
      exact hInv
    · obtain ⟨s', out⟩ := sp
      have happly : applyOp env now s (.requestPollReveal pollId) = s' := by
        simp [applyOp, hc]
      obtain ⟨hcr, -, hfin0, -, hvc, -, hnext, hpoll, hother, -, -, htal, -, -⟩ :=
        requestPollReveal_ok env s pollId now s' out hc
      have hlt := pollId_lt_next s pollId hInv hcr
      rw [happly]
      constructor
      · rw [hnext]; exact hInv.one_le_next
      · intro p hp
        rw [hnext] at hp
        rw [hother p (by omega)]
        exact hInv.fresh p hp
      · intro p hfin
        by_cases hpp : p = pollId
        · subst hpp; simp [hpoll]
        · rw [hother p hpp] at hfin ⊢; exact hInv.fin_req p hfin
      · intro p hreq
        by_cases hpp : p = pollId
        · subst hpp; rw [hpoll]; simpa using Nat.one_le_iff_ne_zero.mpr hvc
        · rw [hother p hpp] at hreq ⊢; exact hInv.req_votes p hreq
      · intro p hfin
        rw [htal]
        by_cases hpp : p = pollId
        · subst hpp
          rw [hpoll] at hfin
          simp at hfin
          rw [hfin] at hfin0
          cases hfin0
        · rw [hother p hpp] at hfin ⊢
          exact hInv.tally_len p hfin
  | resolvePollCallback pollId bytes dproof =>
    rcases hc : resolvePollCallback env s pollId bytes dproof with e | s'
    · rw [applyOp_resolvePollCallback_error env now s pollId bytes dproof e hc]
      exact hInv
    · have happly : applyOp env now s (.resolvePollCallback pollId bytes dproof) = s' := by
        simp [applyOp, hc]
      obtain ⟨hcr, hreq1, -, -, counts, hdec, hnext, hpoll, hother, -, -,
        htalp, htalo, -, -⟩ :=
        resolvePollCallback_ok env s pollId bytes dproof s' hc
      have hlt := pollId_lt_next s pollId hInv hcr
      have hlen := (decodeCounts_ok_spec bytes _ _ counts hdec).1
      rw [happly]
      constructor
      · rw [hnext]; exact hInv.one_le_next
      · intro p hp
        rw [hnext] at hp
        rw [hother p (by omega)]
        exact hInv.fresh p hp
      · intro p hfin
        by_cases hpp : p = pollId
        · subst hpp; rw [hpoll]; simpa using hreq1
        · rw [hother p hpp] at hfin ⊢; exact hInv.fin_req p hfin
      · intro p hreq
        by_cases hpp : p = pollId
        · subst hpp
          rw [hpoll]
          simpa using hInv.req_votes p hreq1
        · rw [hother p hpp] at hreq ⊢; exact hInv.req_votes p hreq
      · intro p hfin
        by_cases hpp : p = pollId
        · subst hpp
          rw [htalp, hpoll]
          simpa using hlen
        · rw [hother p hpp] at hfin
          rw [htalo p hpp, hother p hpp]
          exact hInv.tally_len p hfin

/-- The invariant holds along any run. -/
theorem inv_run (env : FHEEnv) (ops : List (Nat × Op)) :
    ∀ s, Inv s → Inv (run env s ops) := by
  induction ops with
  | nil => intro s h; exact h
  | cons e rest ih =>
    intro s h
    obtain ⟨t, op⟩ := e
    exact ih _ (inv_applyOp env t s op h)

/-- Every reachable state satisfies the invariant. -/
theorem inv_reachable (env : FHEEnv) (ops : List (Nat × Op)) :
    Inv (run env initState ops) :=
  inv_run env ops initState inv_init

/-! ## Vote-set freezing -/

/-- A single transaction leaves a poll's vote data (vote count,
stored votes, schedule, creator) untouched, provided any `castVote`
aimed at this poll is strictly after its `endTime`. -/
theorem step_preserves_pollData (env : FHEEnv) (t : Nat) (s : CState)
    (op : Op) (pollId : Nat) (hInv : Inv s)
    (hc : (s.polls pollId).creator ≠ 0)
    (hcast : ∀ sender h pr, op = Op.castVote sender pollId h pr →
      (s.polls pollId).endTime < t) :
    ((applyOp env t s op).polls pollId).voteCount = (s.polls pollId).voteCount ∧
    ((applyOp env t s op).polls pollId).endTime = (s.polls pollId).endTime ∧
    ((applyOp env t s op).polls pollId).creator = (s.polls pollId).creator ∧
    (∀ v, (applyOp env t s op).pollVotes pollId v = s.pollVotes pollId v) := by
  have hlt := pollId_lt_next s pollId hInv hc
  cases op with
  | createPoll sender q opts st et =>
    rcases hr : createPoll s sender q opts st et t with e | sp
    · rw [applyOp_createPoll_error env t s sender q opts st et e hr]
      exact ⟨rfl, rfl, rfl, fun v => rfl⟩
    · obtain ⟨s', pid⟩ := sp
      have happly : applyOp env t s (.createPoll sender q opts st et) = s' := by
        simp [applyOp, hr]
      obtain ⟨-, -, -, hpid, -, -, hother, hpv, -, -, -, -⟩ :=
        createPoll_ok s sender q opts st et t s' pid hr
      rw [happly, hother pollId (by omega), hpv]
      exact ⟨rfl, rfl, rfl, fun v => rfl⟩
  | castVote sender p' h pr =>
    rcases hr : castVote env s sender p' h pr t with e | s'
    · rw [applyOp_castVote_error env t s sender p' h pr e hr]
      exact ⟨rfl, rfl, rfl, fun v => rfl⟩
    · have happly : applyOp env t s (.castVote sender p' h pr) = s' := by
        simp [applyOp, hr]
      obtain ⟨-, -, hwin, -, -, -, hother, -, -, -, hpv, -, -, -⟩ :=
        castVote_ok env s sender p' h pr t s' hr
      by_cases hpp : p' = pollId
      · subst hpp
        exact absurd hwin (by have := hcast sender h pr rfl; omega)
      · rw [happly, hother pollId (fun hh => hpp hh.symm)]
        refine ⟨rfl, rfl, rfl, fun v => ?_⟩
        exact hpv pollId v (Or.inl (fun hh => hpp hh.symm))
  | requestPollReveal p' =>
    rcases hr : requestPollReveal env s p' t with e | sp
    · rw [applyOp_requestPollReveal_error env t s p' e hr]
      exact ⟨rfl, rfl, rfl, fun v => rfl⟩
    · obtain ⟨s', out⟩ := sp
      have happly : applyOp env t s (.requestPollReveal p') = s' := by
        simp [applyOp, hr]
      obtain ⟨-, -, -, -, -, -, -, hpoll, hother, hpv, -, -, -, -⟩ :=
        requestPollReveal_ok env s p' t s' out hr
      rw [happly]
      by_cases hpp : p' = pollId
      · subst hpp
        rw [hpoll, hpv]
        exact ⟨rfl, rfl, rfl, fun v => rfl⟩
      · rw [hother pollId (fun hh => hpp hh.symm), hpv]
        exact ⟨rfl, rfl, rfl, fun v => rfl⟩
  | resolvePollCallback p' bytes dproof =>
    rcases hr : resolvePollCallback env s p' bytes dproof with e | s'
    · rw [applyOp_resolvePollCallback_error env t s p' bytes dproof e hr]
      exact ⟨rfl, rfl, rfl, fun v => rfl⟩
    · have happly : applyOp env t s (.resolvePollCallback p' bytes dproof) = s' := by
        simp [applyOp, hr]
      obtain ⟨-, -, -, -, counts, -, -, hpoll, hother, hpv, -, -, -, -, -⟩ :=
        resolvePollCallback_ok env s p' bytes dproof s' hr
      rw [happly]
      by_cases hpp : p' = pollId
      · subst hpp
        rw [hpoll, hpv]
        exact ⟨rfl, rfl, rfl, fun v => rfl⟩
      · rw [hother pollId (fun hh => hpp hh.symm), hpv]
        exact ⟨rfl, rfl, rfl, fun v => rfl⟩

/-- Along any run whose `castVote` transactions against this poll
all happen strictly after its `endTime`, the poll's vote data is
frozen. -/
theorem run_preserves_pollData (env : FHEEnv) (pollId : Nat) :
    ∀ (ops : List (Nat × Op)) (s : CState), Inv s →
      (s.polls pollId).creator ≠ 0 →
      (∀ t sender h pr, (t, Op.castVote sender pollId h pr) ∈ ops →
        (s.polls pollId).endTime < t) →
      ((run env s ops).polls pollId).voteCount = (s.polls pollId).voteCount ∧
      ((run env s ops).polls pollId).endTime = (s.polls pollId).endTime ∧
      ((run env s ops).polls pollId).creator = (s.polls pollId).creator ∧
      (∀ v, (run env s ops).pollVotes pollId v = s.pollVotes pollId v) := by
  intro ops
  induction ops with
  | nil => intro s _ _ _; exact ⟨rfl, rfl, rfl, fun v => rfl⟩
  | cons e rest ih =>
    intro s hInv hc hcast
    obtain ⟨t, op⟩ := e
    have hstep := step_preserves_pollData env t s op pollId hInv hc
      (fun sender h pr hop => hcast t sender h pr (by rw [hop]; exact List.mem_cons_self _ _))
    obtain ⟨hvc, het, hcr, hpv⟩ := hstep
    have hInv1 := inv_applyOp env t s op hInv
    have hc1 : ((applyOp env t s op).polls pollId).creator ≠ 0 := by
      rw [hcr]; exact hc
    have hcast1 : ∀ t2 sender h pr,
        (t2, Op.castVote sender pollId h pr) ∈ rest →
        ((applyOp env t s op).polls pollId).endTime < t2 := by
      intro t2 sender h pr hmem
      rw [het]
      exact hcast t2 sender h pr (List.mem_cons_of_mem _ hmem)
    obtain ⟨hvc2, het2, hcr2, hpv2⟩ := ih (applyOp env t s op) hInv1 hc1 hcast1
    refine ⟨?_, ?_, ?_, ?_⟩
    · rw [show run env s ((t, op) :: rest) = run env (applyOp env t s op) rest from rfl,
        hvc2, hvc]
    · rw [show run env s ((t, op) :: rest) = run env (applyOp env t s op) rest from rfl,
        het2, het]
    · rw [show run env s ((t, op) :: rest) = run env (applyOp env t s op) rest from rfl,
        hcr2, hcr]
    · intro v
      rw [show run env s ((t, op) :: rest) = run env (applyOp env t s op) rest from rfl,
        hpv2 v, hpv v]

/-- The recomputed identifier list only depends on the poll's vote
count and stored votes. -/
theorem handlesOf_congr (env : FHEEnv) (s t : CState) (pollId : Nat)
    (hvc : (t.polls pollId).voteCount = (s.polls pollId).voteCount)
    (hpv : ∀ v, t.pollVotes pollId v = s.pollVotes pollId v) :
    handlesOf env t pollId = handlesOf env s pollId := by
  unfold handlesOf
  rw [hvc]
  exact List.map_congr_left (fun k _ => by rw [hpv (k + 1)])

/-- Entry `k` (0-based) of the identifier list is the identifier of
vote `k + 1`. -/
theorem handlesOf_getD (env : FHEEnv) (s : CState) (pollId k : Nat)
    (hk : k < (s.polls pollId).voteCount) :
    (handlesOf env s pollId).getD k 0 =
      env.toBytes32 (s.pollVotes pollId (k + 1)).encryptedChoice := by
  unfold handlesOf
  rw [List.getD_eq_getElem?_getD, List.getElem?_map]
  simp [List.getElem?_range, hk]

/-! ## Claims -/

/-- Claim C10: `getPoll` is a pure read: it returns the stored
record, and the poll's absence is signalled by the zero record
(`creator = 0`), the same test the contract itself uses. -/
theorem C10_getPoll (s : CState) (pollId : Nat) :
    getPoll s pollId = s.polls pollId ∧
    (pollExists s pollId = false ↔ (getPoll s pollId).creator = 0) := by
  refine ⟨rfl, ?_⟩
  unfold pollExists getPoll
  simp

/-- Claim C8: `createPoll` fails `InvalidOptionCount` on fewer than
two options and `InvalidSchedule` when `endTime ≤ startTime` or
`endTime ≤ now`, leaving the state (including the id counter)
unchanged; on success it returns the current `nextPollId`
(sequential ids starting from `initState.nextPollId = 1`), bumps the
counter, and stores the poll record with the given option labels and
zero-initialized flags and vote count. -/
theorem C8_createPoll (env : FHEEnv) (s : CState) (sender : Nat) (q : String)
    (opts : List String) (st et now : Nat) :
    (opts.length < 2 →
      createPoll s sender q opts st et now = .error .InvalidOptionCount ∧
      applyOp env now s (.createPoll sender q opts st et) = s) ∧
    (2 ≤ opts.length → (et ≤ st ∨ et ≤ now) →
      createPoll s sender q opts st et now = .error .InvalidSchedule ∧
      applyOp env now s (.createPoll sender q opts st et) = s) ∧
    (2 ≤ opts.length → st < et → now < et →
      isOkE (createPoll s sender q opts st et now) = true) ∧
    (∀ s' pid, createPoll s sender q opts st et now = .ok (s', pid) →
      pid = s.nextPollId ∧
      s'.nextPollId = s.nextPollId + 1 ∧
      s'.polls pid = { creator := sender, question := q, options := opts,
                       startTime := st, endTime := et, finalized := false,
                       voteCount := 0, revealRequested := false } ∧
      (∀ p, p ≠ pid → s'.polls p = s.polls p)) ∧
    initState.nextPollId = 1 := by
  refine ⟨?_, ?_, ?_, ?_, rfl⟩
  · intro hlen
    have herr : createPoll s sender q opts st et now = .error .InvalidOptionCount := by
      simp [createPoll, hlen]
    exact ⟨herr, applyOp_createPoll_error env now s sender q opts st et _ herr⟩
  · intro hlen hsched
    have herr : createPoll s sender q opts st et now = .error .InvalidSchedule := by
      simp [createPoll, Nat.not_lt.mpr hlen, hsched]
    exact ⟨herr, applyOp_createPoll_error env now s sender q opts st et _ herr⟩
  · intro hlen hst hnow
    simp [createPoll, isOkE, Nat.not_lt.mpr hlen, Nat.not_le.mpr hst,
      Nat.not_le.mpr hnow]
  · intro s' pid hok
    obtain ⟨-, -, -, hpid, hnext, hpoll, hother, -, -, -, -, -⟩ :=
      createPoll_ok s sender q opts st et now s' pid hok
    exact ⟨hpid, hnext, hpoll, hother⟩

/-- Claim C8 witness: concrete instances of each clause. -/
theorem C8_witness :
    (createPoll initState 1 "Q" ["A"] 0 10 0 = .error .InvalidOptionCount ∧
      applyOp env0 0 initState (.createPoll 1 "Q" ["A"] 0 10) = initState) ∧
    (createPoll initState 1 "Q" ["A", "B"] 10 5 0 = .error .InvalidSchedule ∧
      applyOp env0 0 initState (.createPoll 1 "Q" ["A", "B"] 10 5) = initState) ∧
    isOkE (createPoll initState 1 "Q" ["A", "B"] 0 10 0) = true ∧
    (1 = initState.nextPollId ∧
      sCreated.nextPollId = initState.nextPollId + 1 ∧
      sCreated.polls 1 = { creator := 1, question := "Q", options := ["A", "B"],
                           startTime := 0, endTime := 10, finalized := false,
                           voteCount := 0, revealRequested := false } ∧
      (∀ p, p ≠ 1 → sCreated.polls p = initState.polls p)) := by
  refine ⟨(C8_createPoll env0 initState 1 "Q" ["A"] 0 10 0).1 (by decide),
          (C8_createPoll env0 initState 1 "Q" ["A", "B"] 10 5 0).2.1
            (by decide) (by decide),
          (C8_createPoll env0 initState 1 "Q" ["A", "B"] 0 10 0).2.2.1
            (by decide) (by decide) (by decide),
          (C8_createPoll env0 initState 1 "Q" ["A", "B"] 0 10 0).2.2.2.1
            sCreated 1 rfl⟩

/-- Claim C7 counterexample: after voter 2's successful vote in poll
1 (window [0,10]), a second `castVote` by the same voter at time 11
fails `PollNotActive`, not `AlreadyVoted`: the window check runs
before the `hasVoted` check, so the claim's "always fails
`AlreadyVoted`" does not hold outside the voting window. -/
theorem C7_counterexample :
    sVoted.hasVoted 1 2 = true ∧
    (sVoted.polls 1).voteCount = 1 ∧
    castVote env0 sVoted 2 1 8 [] 11 = .error .PollNotActive ∧
    Err.PollNotActive ≠ Err.AlreadyVoted := by
  exact ⟨by decide, by decide, rfl, by decide⟩

/-- Claim C7 (amended): `castVote` fails `InvalidPoll` on a missing
poll and `PollNotActive` outside the inclusive window; within the
window a voter with a `HasVoted` marker gets `AlreadyVoted`; every
rejected call leaves the state unchanged; and after one successful
vote, a repeat by the same voter fails `AlreadyVoted` whenever the
repeat is inside the window, and `PollNotActive` (checked first)
when it is outside. -/
theorem C7_amended (env : FHEEnv) (s : CState) (sender pollId h : Nat)
    (pr : List Nat) (now : Nat) :
    ((s.polls pollId).creator = 0 →
      castVote env s sender pollId h pr now = .error .InvalidPoll) ∧
    ((s.polls pollId).creator ≠ 0 →
      (now < (s.polls pollId).startTime ∨ (s.polls pollId).endTime < now) →
      castVote env s sender pollId h pr now = .error .PollNotActive) ∧
    ((s.polls pollId).creator ≠ 0 →
      (s.polls pollId).startTime ≤ now → now ≤ (s.polls pollId).endTime →
      s.hasVoted pollId sender = true →
      castVote env s sender pollId h pr now = .error .AlreadyVoted) ∧
    (∀ e, castVote env s sender pollId h pr now = .error e →
      applyOp env now s (.castVote sender pollId h pr) = s) ∧
    (∀ s', castVote env s sender pollId h pr now = .ok s' →
      ∀ h2 pr2 now2,
        ((s.polls pollId).startTime ≤ now2 → now2 ≤ (s.polls pollId).endTime →
          castVote env s' sender pollId h2 pr2 now2 = .error .AlreadyVoted) ∧
        ((now2 < (s.polls pollId).startTime ∨ (s.polls pollId).endTime < now2) →
          castVote env s' sender pollId h2 pr2 now2 = .error .PollNotActive)) := by
  refine ⟨?_, ?_, ?_, ?_, ?_⟩
  · intro hc
    simp [castVote, hc]
  · intro hc hwin
    simp [castVote, hc, hwin]
  · intro hc hst het hv
    have hwin : ¬(now < (s.polls pollId).startTime ∨
        (s.polls pollId).endTime < now) := by omega
    simp [castVote, hc, hwin, hv]
  · intro e herr
    exact applyOp_castVote_error env now s sender pollId h pr e herr
  · intro s' hok h2 pr2 now2
    obtain ⟨hc, -, -, -, -, hpoll, -, hhv, -, -, -, -, -, -⟩ :=
      castVote_ok env s sender pollId h pr now s' hok
    have hcr' : (s'.polls pollId).creator = (s.polls pollId).creator := by
      rw [hpoll]
    have hst' : (s'.polls pollId).startTime = (s.polls pollId).startTime := by
      rw [hpoll]
    have het' : (s'.polls pollId).endTime = (s.polls pollId).endTime := by
      rw [hpoll]
    constructor
    · intro hge hle
      have hwin : ¬(now2 < (s'.polls pollId).startTime ∨
          (s'.polls pollId).endTime < now2) := by
        rw [hst', het']; omega
      have hc' : ¬(s'.polls pollId).creator = 0 := by rw [hcr']; exact hc
      simp [castVote, hc', hwin, hhv]
    · intro hwin
      have hwin' : now2 < (s'.polls pollId).startTime ∨
          (s'.polls pollId).endTime < now2 := by
        rw [hst', het']; exact hwin
      have hc' : ¬(s'.polls pollId).creator = 0 := by rw [hcr']; exact hc
      simp [castVote, hc', hwin']

/-- Claim C7 witness: voter 2's repeat inside the window fails
`AlreadyVoted`; voter 3's repeat after the window fails
`PollNotActive`; a rejected call leaves the state unchanged. -/
theorem C7_witness :
    castVote env0 sVoted 2 1 8 [] 7 = .error .AlreadyVoted ∧
    castVote env0 sVoted2 3 1 11 [] 12 = .error .PollNotActive ∧
    applyOp env0 7 sVoted (.castVote 2 1 8 []) = sVoted := by
  have h1 := (C7_amended env0 sVoted 2 1 8 [] 7).2.2.1
    (by decide) (by decide) (by decide) (by decide)
  have h2 := ((C7_amended env0 sVoted 3 1 9 [] 6).2.2.2.2 sVoted2 rfl
    11 [] 12).2 (by decide)
  have h3 := (C7_amended env0 sVoted 2 1 8 [] 7).2.2.2.1 .AlreadyVoted h1
  exact ⟨h1, h2, h3⟩

/-- Claim C1 counterexample: with poll 1 closing at time 10,
`requestPollReveal` succeeds at the boundary instant `now = 10`
(emitting identifier list [7]), and a subsequent `castVote` by a new
voter at the same instant also succeeds (the voting window is
inclusive of `endTime`), so the identifier list recomputed from the
stored votes afterwards is [7, 9], not the emitted [7]. -/
theorem C1_counterexample :
    (sRevealed.polls 1).revealRequested = true ∧
    sRevealed.events.getLast? = some (.PollRevealRequested 1 [7]) ∧
    (sLateVote.polls 1).voteCount = 2 ∧
    handlesOf env0 sLateVote 1 = [7, 9] ∧
    handlesOf env0 sLateVote 1 ≠ [7] := by
  decide

/-- Claim C5 counterexample: in the reachable state reached by
finalizing poll 1 at the boundary instant and then admitting one
more boundary-instant vote, the poll is finalized but its stored
tally sums to 1 while `voteCount` is 2. -/
theorem C5_counterexample :
    (sPostFinalVote.polls 1).finalized = true ∧
    (sPostFinalVote.tallies 1).counts.sum = 1 ∧
    (sPostFinalVote.polls 1).voteCount = 2 := by
  decide

/-- Claim C9 counterexample: poll 1 is finalized with `voteCount`
1, yet a boundary-instant `castVote` afterwards mutates the poll
record, bumping `voteCount` to 2 — so "after finalization no
operation mutates the poll record" fails. -/
theorem C9_counterexample :
    (sFinalized.polls 1).finalized = true ∧
    (sFinalized.polls 1).voteCount = 1 ∧
    (sPostFinalVote.polls 1).finalized = true ∧
    (sPostFinalVote.polls 1).voteCount = 2 ∧
    sPostFinalVote.polls 1 ≠ sFinalized.polls 1 := by
  decide

/-- Claim C2: `resolvePollCallback` fails `InvalidPoll`,
`NotRequested` and `AlreadyFinalized` in guard order; the
decryption proof is checked against the recomputed identifier list
(`handlesOf`) before any payload byte is interpreted, so when the
check rejects, the call fails `ProofVerificationFailed` — never a
decode error — and mutates no state: the tally and the `finalized`
flag are untouched. -/
theorem C2_resolve_guards (env : FHEEnv) (s : CState) (pollId t : Nat)
    (bytes dproof : List Nat) :
    ((s.polls pollId).creator = 0 →
      resolvePollCallback env s pollId bytes dproof = .error .InvalidPoll) ∧
    ((s.polls pollId).creator ≠ 0 → (s.polls pollId).revealRequested = false →
      resolvePollCallback env s pollId bytes dproof = .error .NotRequested) ∧
    ((s.polls pollId).creator ≠ 0 → (s.polls pollId).revealRequested = true →
      (s.polls pollId).finalized = true →
      resolvePollCallback env s pollId bytes dproof = .error .AlreadyFinalized) ∧
    ((s.polls pollId).creator ≠ 0 → (s.polls pollId).revealRequested = true →
      (s.polls pollId).finalized = false →
      env.checkSignatures (handlesOf env s pollId) bytes dproof = false →
      resolvePollCallback env s pollId bytes dproof =
        .error .ProofVerificationFailed ∧
      applyOp env t s (.resolvePollCallback pollId bytes dproof) = s ∧
      (applyOp env t s (.resolvePollCallback pollId bytes dproof)).tallies pollId
        = s.tallies pollId ∧
      ((applyOp env t s (.resolvePollCallback pollId bytes dproof)).polls
        pollId).finalized = false) := by
  refine ⟨?_, ?_, ?_, ?_⟩
  · intro hc
    simp [resolvePollCallback, hc]
  · intro hc hrq
    simp [resolvePollCallback, hc, hrq]
  · intro hc hrq hfin
    simp [resolvePollCallback, hc, hrq, hfin]
  · intro hc hrq hfin hsig
    have herr : resolvePollCallback env s pollId bytes dproof =
        .error .ProofVerificationFailed := by
      simp [resolvePollCallback, hc, hrq, hfin, hsig]
    have happly := applyOp_resolvePollCallback_error env t s pollId bytes dproof
      _ herr
    exact ⟨herr, happly, by rw [happly], by rw [happly]; exact hfin⟩

/-- Claim C2 witness: with a rejecting signature check, resolving
poll 1 (reveal requested, not finalized) fails
`ProofVerificationFailed` and changes nothing. -/
theorem C2_witness :
    resolvePollCallback envNoSig sRevealed 1 bundle0 [] =
      .error .ProofVerificationFailed ∧
    applyOp envNoSig 12 sRevealed (.resolvePollCallback 1 bundle0 []) =
      sRevealed := by
  have h := (C2_resolve_guards envNoSig sRevealed 1 12 bundle0 []).2.2.2
    (by decide) (by decide) (by decide) (by decide)
  exact ⟨h.1, h.2.1⟩

/-- Claim C3: the decoder reads slot `i` at byte offset `i * 32`,
taking the 32-byte word's low-order byte as the choice; a successful
decode of `voteCount` slots into `optionCount` counters satisfies
`counts[c] = number of slots whose low byte is c`; if every slot is
in range the decode succeeds, and if any slot is out of range the
whole decode (and the resolve call around it) aborts with
`ChoiceOutOfBounds`, writing nothing; concretely, slots [0,1,0] with
two options decode to [2,1] and a slot value 2 aborts. -/
theorem C3_decoder (bytes : List Nat) (vc oc : Nat) (dproof : List Nat) :
    (∀ i, slotChoice bytes i = bytes.getD (32 * i + 31) 0 % 256) ∧
    (∀ counts, decodeCounts bytes vc oc = .ok counts →
      counts.length = oc ∧
      ∀ c, counts.getD c 0 =
        ((List.range vc).map (fun i => slotChoice bytes i)).count c) ∧
    ((∀ i, i < vc → slotChoice bytes i < oc) →
      isOkE (decodeCounts bytes vc oc) = true) ∧
    ((∃ i, i < vc ∧ oc ≤ slotChoice bytes i) →
      decodeCounts bytes vc oc = .error .ChoiceOutOfBounds) ∧
    (∀ env s pollId t, (s.polls pollId).creator ≠ 0 →
      (s.polls pollId).revealRequested = true →
      (s.polls pollId).finalized = false →
      env.checkSignatures (handlesOf env s pollId) bytes dproof = true →
      decodeCounts bytes (s.polls pollId).voteCount
        (s.polls pollId).options.length = .error .ChoiceOutOfBounds →
      resolvePollCallback env s pollId bytes dproof = .error .ChoiceOutOfBounds ∧
      applyOp env t s (.resolvePollCallback pollId bytes dproof) = s) ∧
    decodeCounts (slotBytes [0, 1, 0]) 3 2 = .ok [2, 1] ∧
    decodeCounts (slotBytes [0, 2, 0]) 3 2 = .error .ChoiceOutOfBounds := by
  have hshift : ∀ j : Nat, (0 : Nat) + j = j := fun j => Nat.zero_add j
  refine ⟨fun i => rfl, ?_, ?_, ?_, ?_, rfl, rfl⟩
  · intro counts hok
    obtain ⟨h1, -, -, h4⟩ := decodeCounts_ok_spec bytes vc oc counts hok
    refine ⟨h1, fun c => ?_⟩
    rw [h4 c, choicesFrom_eq_map]
    simp only [hshift]
  · intro hall
    refine decodeLoop_isOk bytes oc vc 0 (List.replicate oc 0) ?_
    intro x hx
    rw [choicesFrom_eq_map] at hx
    obtain ⟨j, hjmem, hfx⟩ := List.mem_map.mp hx
    rw [List.mem_range] at hjmem
    rw [← hfx, hshift]
    exact hall j hjmem
  · intro hbad
    obtain ⟨i, hi, hgi⟩ := hbad
    refine decodeLoop_err bytes oc vc 0 (List.replicate oc 0)
      ⟨slotChoice bytes (0 + i), ?_, ?_⟩
    · rw [choicesFrom_eq_map]
      exact List.mem_map.mpr ⟨i, List.mem_range.mpr hi, rfl⟩
    · rw [hshift]; exact hgi
  · intro env s pollId t hc hrq hfin hsig hdec
    have herr : resolvePollCallback env s pollId bytes dproof =
        .error .ChoiceOutOfBounds := by
      simp [resolvePollCallback, hc, hrq, hfin, hsig, hdec]
    exact ⟨herr,
      applyOp_resolvePollCallback_error env t s pollId bytes dproof _ herr⟩

/-- Claim C3 witness: concrete instances of each fallible clause. -/
theorem C3_witness :
    isOkE (decodeCounts (slotBytes [0, 1, 0]) 3 2) = true ∧
    decodeCounts (slotBytes [5]) 1 2 = .error .ChoiceOutOfBounds ∧
    resolvePollCallback env0 sRevealed 1 (slotBytes [5]) [] =
      .error .ChoiceOutOfBounds ∧
    ([2, 1] : List Nat).length = 2 := by
  refine ⟨(C3_decoder (slotBytes [0, 1, 0]) 3 2 []).2.2.1 (by decide),
          (C3_decoder (slotBytes [5]) 1 2 []).2.2.2.1 ⟨0, by decide, by decide⟩,
          ((C3_decoder (slotBytes [5]) 1 2 []).2.2.2.2.1 env0 sRevealed 1 12
            (by decide) (by decide) (by decide) (by decide) rfl).1,
          ((C3_decoder (slotBytes [0, 1, 0]) 3 2 []).2.1 [2, 1] rfl).1⟩

/-- Claim C4 counterexample: a read past the end of the bundle
slice does not, in general, yield zero: `calldataload` continues
into the trailing calldata, canonically the `decryptionProof`
encoding.  With a 100-byte proof laid out right after an empty
bundle, the "missing" slot reads the length word's low byte (100),
and the decode — and the resolve call around it, with the proof
verifying — aborts `ChoiceOutOfBounds` instead of counting a vote
for option 0. -/
theorem C4_counterexample :
    slotChoice (wireBytes [] (proofTail (List.replicate 100 1))) 0 = 100 ∧
    decodeCounts (wireBytes [] (proofTail (List.replicate 100 1))) 1 2 =
      .error .ChoiceOutOfBounds ∧
    resolvePollCallback env0 sRevealed 1
      (wireBytes [] (proofTail (List.replicate 100 1))) [] =
      .error .ChoiceOutOfBounds ∧
    (100 : Nat) ≠ 0 := by
  exact ⟨by decide, rfl, rfl, by decide⟩

/-- Claim C4 (amended): the decode loop never checks the bundle
length — it reads exactly `voteCount` 32-byte slots at offsets
0, 32, ... of the calldata region starting at the bundle slice.  A
read past the bundle continues into the trailing calldata
(canonically the `decryptionProof` encoding) and yields zero only
past the end of the entire calldata; so a short bundle's missing
slots take their values from the trailing bytes, and are counted as
votes for option 0 exactly when those bytes are zero — in
particular when the bundle is laid out last in calldata
(`trailing = []`), where an entirely missing bundle decodes to
`voteCount` votes for option 0.  Bundle bytes beyond
`32 * voteCount` are silently ignored. -/
theorem C4_length_lenient :
    (∀ bundle trailing i,
      (wireBytes bundle trailing).length ≤ 32 * i + 31 →
      slotChoice (wireBytes bundle trailing) i = 0) ∧
    (∀ bundle trailing i, 32 * i + 31 < bundle.length →
      slotChoice (wireBytes bundle trailing) i = slotChoice bundle i) ∧
    (∀ bundle trailing i, bundle.length ≤ 32 * i →
      slotChoice (wireBytes bundle trailing) i =
        trailing.getD (32 * i + 31 - bundle.length) 0 % 256) ∧
    (∀ bundle vc oc,
      decodeCounts (wireBytes bundle []) vc oc = decodeCounts bundle vc oc) ∧
    (∀ vc oc, 1 ≤ oc →
      isOkE (decodeCounts (wireBytes [] []) vc oc) = true) ∧
    (∀ vc oc counts, 1 ≤ oc →
      decodeCounts (wireBytes [] []) vc oc = .ok counts →
      counts.getD 0 0 = vc ∧ ∀ c, 1 ≤ c → counts.getD c 0 = 0) ∧
    (∀ bundle trailing vc oc, 32 * vc ≤ bundle.length →
      decodeCounts (wireBytes bundle trailing) vc oc =
        decodeCounts (bundle.take (32 * vc)) vc oc) ∧
    ((sShortBundle.polls 1).voteCount = 2 ∧
      (sShortBundle.polls 1).finalized = true ∧
      (sShortBundle.tallies 1).counts = [2, 0]) := by
  have hzero : ∀ (vc : Nat) (x : Nat),
      x ∈ choicesFrom ([] : List Nat) 0 vc → x = 0 := by
    intro vc x hx
    rw [choicesFrom_eq_map] at hx
    obtain ⟨j, -, hfx⟩ := List.mem_map.mp hx
    rw [← hfx]
    exact slotChoice_past_end [] (0 + j) (by simp)
  refine ⟨fun bundle trailing i h => slotChoice_past_end _ i h, ?_, ?_, ?_,
    ?_, ?_, ?_, by decide, by decide, by decide⟩
  · intro bundle trailing i h
    unfold slotChoice wireBytes
    rw [List.getD_append bundle trailing 0 _ h]
  · intro bundle trailing i h
    unfold slotChoice wireBytes
    rw [List.getD_append_right bundle trailing 0 _ (by omega)]
  · intro bundle vc oc
    rw [wireBytes, List.append_nil]
  · intro vc oc hoc
    refine decodeLoop_isOk (wireBytes [] []) oc vc 0 (List.replicate oc 0) ?_
    intro x hx
    rw [show wireBytes [] [] = ([] : List Nat) from rfl] at hx
    rw [hzero vc x hx]
    omega
  · intro vc oc counts hoc hok
    rw [show wireBytes [] [] = ([] : List Nat) from rfl] at hok
    obtain ⟨-, -, -, h4⟩ := decodeCounts_ok_spec [] vc oc counts hok
    constructor
    · rw [h4 0]
      rw [List.count_eq_length.mpr (fun b hb => ((hzero vc b hb)).symm)]
      exact choicesFrom_length [] vc 0
    · intro c hc
      rw [h4 c]
      refine List.count_eq_zero.mpr ?_
      intro hmem
      have := hzero vc c hmem
      omega
  · intro bundle trailing vc oc h
    rw [decodeCounts_take (wireBytes bundle trailing) vc oc, wireBytes,
      List.take_append_of_le_length h, ← decodeCounts_take bundle vc oc]

/-- Claim C4 witness: an in-bundle slot is unaffected by the
trailing proof bytes; with nothing trailing, an empty bundle
decodes to all votes for option 0; and trailing bytes after a
full-length bundle are ignored. -/
theorem C4_witness :
    slotChoice (wireBytes (slotBytes [0]) (proofTail (List.replicate 100 1))) 0
      = slotChoice (slotBytes [0]) 0 ∧
    isOkE (decodeCounts (wireBytes [] []) 2 2) = true ∧
    (([2, 0] : List Nat).getD 0 0 = 2 ∧
      ∀ c, 1 ≤ c → ([2, 0] : List Nat).getD c 0 = 0) ∧
    decodeCounts (wireBytes (slotBytes [0, 1]) (proofTail (List.replicate 100 1))) 2 2
      = decodeCounts ((slotBytes [0, 1]).take 64) 2 2 := by
  refine ⟨C4_length_lenient.2.1 (slotBytes [0]) (proofTail (List.replicate 100 1))
            0 (by decide),
          C4_length_lenient.2.2.2.2.1 2 2 (by decide),
          C4_length_lenient.2.2.2.2.2.1 2 2 [2, 0] (by decide) rfl,
          C4_length_lenient.2.2.2.2.2.2.1 (slotBytes [0, 1])
            (proofTail (List.replicate 100 1)) 2 2 (by decide)⟩

/-- Claim C6: `requestPollReveal` fails `PollNotClosed` while
`now < endTime`; on a closed, unrequested, unfinalized poll (which,
by the reachable-state invariant, is forced whenever `voteCount = 0`)
it fails `IncompleteVotes` when there are no votes; it fails
`AlreadyFinalized` on a finalized poll and `AlreadyRequested` on an
already-requested one — each rejection leaving the state (marks,
event log, everything) unchanged; on success it records and emits
the identifier list of votes 1..voteCount in ascending voteId order,
marks each vote's ciphertext handle publicly decryptable, and sets
`revealRequested`. -/
theorem C6_requestPollReveal (env : FHEEnv) (s : CState) (pollId now : Nat) :
    ((s.polls pollId).creator ≠ 0 → now < (s.polls pollId).endTime →
      requestPollReveal env s pollId now = .error .PollNotClosed ∧
      applyOp env now s (.requestPollReveal pollId) = s) ∧
    (Inv s → (s.polls pollId).creator ≠ 0 → (s.polls pollId).endTime ≤ now →
      (s.polls pollId).voteCount = 0 →
      requestPollReveal env s pollId now = .error .IncompleteVotes ∧
      applyOp env now s (.requestPollReveal pollId) = s) ∧
    ((s.polls pollId).creator ≠ 0 → (s.polls pollId).endTime ≤ now →
      (s.polls pollId).finalized = true →
      requestPollReveal env s pollId now = .error .AlreadyFinalized ∧
      applyOp env now s (.requestPollReveal pollId) = s) ∧
    ((s.polls pollId).creator ≠ 0 → (s.polls pollId).endTime ≤ now →
      (s.polls pollId).finalized = false →
      (s.polls pollId).revealRequested = true →
      requestPollReveal env s pollId now = .error .AlreadyRequested ∧
      applyOp env now s (.requestPollReveal pollId) = s) ∧
    ((s.polls pollId).creator ≠ 0 → (s.polls pollId).endTime ≤ now →
      (s.polls pollId).finalized = false →
      (s.polls pollId).revealRequested = false →
      (s.polls pollId).voteCount ≠ 0 →
      isOkE (requestPollReveal env s pollId now) = true) ∧
    (∀ s' out, requestPollReveal env s pollId now = .ok (s', out) →
      out = handlesOf env s pollId ∧
      out.length = (s.polls pollId).voteCount ∧
      (∀ k, k < (s.polls pollId).voteCount →
        out.getD k 0 =
          env.toBytes32 (s.pollVotes pollId (k + 1)).encryptedChoice) ∧
      (s'.polls pollId).revealRequested = true ∧
      (∀ k, k < (s.polls pollId).voteCount →
        s'.pubDecryptable ((s.pollVotes pollId (k + 1)).encryptedChoice) = true) ∧
      s'.events = s.events ++ [.PollRevealRequested pollId out]) := by
  refine ⟨?_, ?_, ?_, ?_, ?_, ?_⟩
  · intro hc hlt
    have herr : requestPollReveal env s pollId now = .error .PollNotClosed := by
      simp [requestPollReveal, hc, hlt]
    exact ⟨herr, applyOp_requestPollReveal_error env now s pollId _ herr⟩
  · intro hInv hc hle hvc
    have hrq : (s.polls pollId).revealRequested = false := by
      by_contra hrq
      have := hInv.req_votes pollId (by simpa using hrq)
      omega
    have hfin : (s.polls pollId).finalized = false := by
      by_contra hfin
      have := hInv.fin_req pollId (by simpa using hfin)
      rw [hrq] at this
      cases this
    have herr : requestPollReveal env s pollId now = .error .IncompleteVotes := by
      simp [requestPollReveal, hc, Nat.not_lt.mpr hle, hfin, hrq, hvc]
    exact ⟨herr, applyOp_requestPollReveal_error env now s pollId _ herr⟩
  · intro hc hle hfin
    have herr : requestPollReveal env s pollId now = .error .AlreadyFinalized := by
      simp [requestPollReveal, hc, Nat.not_lt.mpr hle, hfin]
    exact ⟨herr, applyOp_requestPollReveal_error env now s pollId _ herr⟩
  · intro hc hle hfin hrq
    have herr : requestPollReveal env s pollId now = .error .AlreadyRequested := by
      simp [requestPollReveal, hc, Nat.not_lt.mpr hle, hfin, hrq]
    exact ⟨herr, applyOp_requestPollReveal_error env now s pollId _ herr⟩
  · intro hc hle hfin hrq hvc
    simp [requestPollReveal, isOkE, hc, Nat.not_lt.mpr hle, hfin, hrq, hvc]
  · intro s' out hok
    obtain ⟨-, -, -, -, -, hout, -, hpoll, -, -, -, -, hpd, hev⟩ :=
      requestPollReveal_ok env s pollId now s' out hok
    subst hout
    refine ⟨rfl, by simp [handlesOf], ?_, by simp [hpoll], ?_, hev⟩
    · intro k hk
      exact handlesOf_getD env s pollId k hk
    · intro k hk
      rw [hpd]
      have hany : ((List.range (s.polls pollId).voteCount).any
          (fun j => (s.pollVotes pollId (j + 1)).encryptedChoice ==
            (s.pollVotes pollId (k + 1)).encryptedChoice)) = true := by
        rw [List.any_eq_true]
        exact ⟨k, List.mem_range.mpr hk, by simp⟩
      rw [hany, Bool.or_true]

/-- Claim C6 witness: concrete instances — too early fails
`PollNotClosed`; no votes fails `IncompleteVotes` (in a reachable
state); a repeat request fails `AlreadyRequested` without touching
the state; a finalized poll fails `AlreadyFinalized`; and the
successful boundary request emitted exactly [7]. -/
theorem C6_witness :
    requestPollReveal env0 sVoted 1 5 = .error .PollNotClosed ∧
    requestPollReveal env0 sNoVotes 1 11 = .error .IncompleteVotes ∧
    requestPollReveal env0 sRevealed 1 11 = .error .AlreadyRequested ∧
    applyOp env0 11 sRevealed (.requestPollReveal 1) = sRevealed ∧
    requestPollReveal env0 sFinalized 1 11 = .error .AlreadyFinalized ∧
    ([7] : List Nat) = handlesOf env0 sVoted 1 ∧
    (sReqLate.polls 1).revealRequested = true ∧
    sReqLate.pubDecryptable 7 = true := by
  have h1 := (C6_requestPollReveal env0 sVoted 1 5).1 (by decide) (by decide)
  have h2 := (C6_requestPollReveal env0 sNoVotes 1 11).2.1
    (inv_reachable env0 opsNoVotes) (by decide) (by decide) (by decide)
  have h3 := (C6_requestPollReveal env0 sRevealed 1 11).2.2.2.1
    (by decide) (by decide) (by decide) (by decide)
  have h4 := (C6_requestPollReveal env0 sFinalized 1 11).2.2.1
    (by decide) (by decide) (by decide)
  have h5 := (C6_requestPollReveal env0 sVoted 1 11).2.2.2.2.2 sReqLate [7] rfl
  exact ⟨h1.1, h2.1, h3.1, h3.2, h4.1, h5.1, h5.2.2.2.1,
    by have := h5.2.2.2.2.1 0 (by decide); simpa using this⟩

/-- Claim C1 (amended): after a successful `requestPollReveal`, the
recomputed identifier list equals the emitted one, any `castVote`
for that poll at a time strictly after `endTime` fails
`PollNotActive`, and along any continuation whose `castVote`
transactions against this poll are all strictly after `endTime` the
recomputed list stays equal to the emitted one.  (Only a vote at the
boundary instant `now = endTime` — admitted by the inclusive voting
window even though the close check `now ≥ endTime` has already let
the reveal through — can change the list; see the counterexample.) -/
theorem C1_amended (env : FHEEnv) (s : CState) (pollId now : Nat)
    (s' : CState) (out : List Nat) (hInv : Inv s)
    (hreq : requestPollReveal env s pollId now = .ok (s', out)) :
    handlesOf env s' pollId = out ∧
    (∀ sender h pr now2, (s'.polls pollId).endTime < now2 →
      castVote env s' sender pollId h pr now2 = .error .PollNotActive) ∧
    (∀ ops, (∀ t sender h pr, (t, Op.castVote sender pollId h pr) ∈ ops →
        (s'.polls pollId).endTime < t) →
      handlesOf env (run env s' ops) pollId = out) := by
  obtain ⟨hc, -, -, -, -, hout, -, hpoll, -, hpv, -, -, -, -⟩ :=
    requestPollReveal_ok env s pollId now s' out hreq
  have hInv' : Inv s' := by
    have happly : applyOp env now s (.requestPollReveal pollId) = s' := by
      simp [applyOp, hreq]
    rw [← happly]
    exact inv_applyOp env now s _ hInv
  have hvc' : (s'.polls pollId).voteCount = (s.polls pollId).voteCount := by
    rw [hpoll]
  have hpv' : ∀ v, s'.pollVotes pollId v = s.pollVotes pollId v := by
    intro v; rw [hpv]
  have hfirst : handlesOf env s' pollId = out := by
    rw [handlesOf_congr env s s' pollId hvc' hpv', hout]
  have hc' : (s'.polls pollId).creator ≠ 0 := by
    rw [hpoll]; simpa using hc
  refine ⟨hfirst, ?_, ?_⟩
  · intro sender h pr now2 hgt
    simp [castVote, hc', Or.inr hgt]
  · intro ops hops
    obtain ⟨hvc2, -, -, hpv2⟩ :=
      run_preserves_pollData env pollId ops s' hInv' hc' hops
    rw [handlesOf_congr env s' (run env s' ops) pollId hvc2 hpv2, hfirst]

/-- Claim C1 witness: after the (strictly late, time 11) reveal
request on poll 1 emitting [7], a boundary-free follow-up vote at
time 12 fails `PollNotActive`, the recomputed list equals [7], and
it stays [7] along a continuation with only a late vote attempt. -/
theorem C1_witness :
    handlesOf env0 sReqLate 1 = [7] ∧
    castVote env0 sReqLate 4 1 12 [] 12 = .error .PollNotActive ∧
    handlesOf env0 (run env0 sReqLate [(12, .castVote 4 1 12 [])]) 1 = [7] := by
  have h := C1_amended env0 sVoted 1 11 sReqLate [7]
    (inv_reachable env0 opsVoted) rfl
  refine ⟨h.1, h.2.1 4 12 [] 12 (by decide), h.2.2 [(12, .castVote 4 1 12 [])] ?_⟩
  intro t sender hh pr hmem
  simp only [List.mem_singleton, Prod.mk.injEq] at hmem
  obtain ⟨ht, hop⟩ := hmem
  cases hop
  subst ht
  decide

/-- Claim C9 (amended): over any single transaction from an
invariant-satisfying state, `revealRequested` and `finalized` are
monotone (never flip back to false), `finalized` can only become
true on a poll whose reveal was already requested, and after
finalization the tally, the option list, the schedule and both flags
are never mutated — but the poll record itself is not immutable: a
boundary-instant `castVote` can still grow `voteCount` (see the
counterexample). -/
theorem C9_amended (env : FHEEnv) (s : CState) (hInv : Inv s) (t : Nat)
    (op : Op) (p : Nat) :
    ((s.polls p).revealRequested = true →
      ((applyOp env t s op).polls p).revealRequested = true) ∧
    ((s.polls p).finalized = true →
      ((applyOp env t s op).polls p).finalized = true) ∧
    (((applyOp env t s op).polls p).finalized = true →
      (s.polls p).finalized = true ∨ (s.polls p).revealRequested = true) ∧
    ((s.polls p).finalized = true →
      (applyOp env t s op).tallies p = s.tallies p ∧
      ((applyOp env t s op).polls p).options = (s.polls p).options ∧
      ((applyOp env t s op).polls p).startTime = (s.polls p).startTime ∧
      ((applyOp env t s op).polls p).endTime = (s.polls p).endTime ∧
      ((applyOp env t s op).polls p).finalized = true ∧
      ((applyOp env t s op).polls p).revealRequested = true) := by
  cases op with
  | createPoll sender q opts st et =>
    rcases hr : createPoll s sender q opts st et t with e | sp
    · rw [applyOp_createPoll_error env t s sender q opts st et e hr]
      exact ⟨fun h => h, fun h => h, fun h => Or.inl h,
        fun h => ⟨rfl, rfl, rfl, rfl, h, hInv.fin_req p h⟩⟩
    · obtain ⟨s', pid⟩ := sp
      have happly : applyOp env t s (.createPoll sender q opts st et) = s' := by
        simp [applyOp, hr]
      obtain ⟨-, -, -, hpid, -, hpoll, hother, -, -, htal, -, -⟩ :=
        createPoll_ok s sender q opts st et t s' pid hr
      rw [happly]
      by_cases hpp : p = pid
      · subst hpp
        have hemp : s.polls p = emptyPoll := hInv.fresh p (by omega)
        refine ⟨?_, ?_, ?_, ?_⟩
        · intro hreq; rw [hemp] at hreq; cases hreq
        · intro hfin; rw [hemp] at hfin; cases hfin
        · intro hfin; rw [hpoll] at hfin; cases hfin
        · intro hfin; rw [hemp] at hfin; cases hfin
      · rw [hother p hpp, htal]
        exact ⟨fun h => h, fun h => h, fun h => Or.inl h,
          fun h => ⟨rfl, rfl, rfl, rfl, h, hInv.fin_req p h⟩⟩
  | castVote sender p' h pr =>
    rcases hr : castVote env s sender p' h pr t with e | s'
    · rw [applyOp_castVote_error env t s sender p' h pr e hr]
      exact ⟨fun hh => hh, fun hh => hh, fun hh => Or.inl hh,
        fun hh => ⟨rfl, rfl, rfl, rfl, hh, hInv.fin_req p hh⟩⟩
    · have happly : applyOp env t s (.castVote sender p' h pr) = s' := by
        simp [applyOp, hr]
      obtain ⟨-, -, -, -, -, hpoll, hother, -, -, -, -, htal, -, -⟩ :=
        castVote_ok env s sender p' h pr t s' hr
      rw [happly]
      by_cases hpp : p = p'
      · subst hpp
        rw [hpoll, htal]
        exact ⟨fun hh => hh, fun hh => hh, fun hh => Or.inl hh,
          fun hh => ⟨rfl, rfl, rfl, rfl, hh, hInv.fin_req p hh⟩⟩
      · rw [hother p hpp, htal]
        exact ⟨fun hh => hh, fun hh => hh, fun hh => Or.inl hh,
          fun hh => ⟨rfl, rfl, rfl, rfl, hh, hInv.fin_req p hh⟩⟩
  | requestPollReveal p' =>
    rcases hr : requestPollReveal env s p' t with e | sp
    · rw [applyOp_requestPollReveal_error env t s p' e hr]
      exact ⟨fun hh => hh, fun hh => hh, fun hh => Or.inl hh,
        fun hh => ⟨rfl, rfl, rfl, rfl, hh, hInv.fin_req p hh⟩⟩
    · obtain ⟨s', out⟩ := sp
      have happly : applyOp env t s (.requestPollReveal p') = s' := by
        simp [applyOp, hr]
      obtain ⟨-, -, hfin0, hrq0, -, -, -, hpoll, hother, -, -, htal, -, -⟩ :=
        requestPollReveal_ok env s p' t s' out hr
      rw [happly]
      by_cases hpp : p = p'
      · subst hpp
        refine ⟨fun hh => by simp [hpoll], fun hh => ?_, fun hh => ?_, fun hh => ?_⟩
        · rw [hfin0] at hh; cases hh
        · rw [hpoll] at hh
          simp at hh
          rw [hh] at hfin0; cases hfin0
        · rw [hfin0] at hh; cases hh
      · rw [hother p hpp, htal]
        exact ⟨fun hh => hh, fun hh => hh, fun hh => Or.inl hh,
          fun hh => ⟨rfl, rfl, rfl, rfl, hh, hInv.fin_req p hh⟩⟩
  | resolvePollCallback p' bytes dproof =>
    rcases hr : resolvePollCallback env s p' bytes dproof with e | s'
    · rw [applyOp_resolvePollCallback_error env t s p' bytes dproof e hr]
      exact ⟨fun hh => hh, fun hh => hh, fun hh => Or.inl hh,
        fun hh => ⟨rfl, rfl, rfl, rfl, hh, hInv.fin_req p hh⟩⟩
    · have happly : applyOp env t s (.resolvePollCallback p' bytes dproof) = s' := by
        simp [applyOp, hr]
      obtain ⟨-, hrq1, hfin0, -, counts, -, -, hpoll, hother, -, -, -, htalo,
        -, -⟩ := resolvePollCallback_ok env s p' bytes dproof s' hr
      rw [happly]
      by_cases hpp : p = p'
      · subst hpp
        refine ⟨fun hh => by simpa [hpoll] using hrq1, fun hh => by simp [hpoll],
          fun hh => Or.inr hrq1, fun hh => ?_⟩
        · rw [hfin0] at hh; cases hh
      · rw [hother p hpp, htalo p hpp]
        exact ⟨fun hh => hh, fun hh => hh, fun hh => Or.inl hh,
          fun hh => ⟨rfl, rfl, rfl, rfl, hh, hInv.fin_req p hh⟩⟩

/-- Claim C9 witness: finalizing poll 1 keeps `revealRequested`
true and can only happen with the reveal already requested; and the
boundary vote after finalization leaves the tally, options, schedule
and flags of poll 1 untouched (only `voteCount` moved). -/
theorem C9_witness :
    (sFinalized.polls 1).revealRequested = true ∧
    ((sFinalized.polls 1).finalized = true →
      (sRevealed.polls 1).finalized = true ∨
      (sRevealed.polls 1).revealRequested = true) ∧
    (sPostFinalVote.tallies 1 = sFinalized.tallies 1 ∧
      (sPostFinalVote.polls 1).options = (sFinalized.polls 1).options ∧
      (sPostFinalVote.polls 1).startTime = (sFinalized.polls 1).startTime ∧
      (sPostFinalVote.polls 1).endTime = (sFinalized.polls 1).endTime ∧
      (sPostFinalVote.polls 1).finalized = true ∧
      (sPostFinalVote.polls 1).revealRequested = true) := by
  have h1 := C9_amended env0 sRevealed (inv_reachable env0 opsRevealed) 10
    (.resolvePollCallback 1 bundle0 []) 1
  have h2 := C9_amended env0 sFinalized (inv_reachable env0 opsFinalized) 10
    (.castVote 3 1 9 []) 1
  exact ⟨h1.1 (by decide), fun hh => h1.2.2.1 hh, h2.2.2.2 (by decide)⟩

/-- Claim C5 (amended): at the moment `resolvePollCallback`
succeeds, the stored tally has one counter per option and sums to
the poll's `voteCount`; the length equality holds for every
finalized poll in every reachable state, but the sum equality can be
broken later by a boundary-instant `castVote` (see the
counterexample), which grows `voteCount` without touching the
tally. -/
theorem C5_amended (env : FHEEnv) :
    (∀ s pollId bytes dproof s',
      resolvePollCallback env s pollId bytes dproof = .ok s' →
      (s'.tallies pollId).counts.length = (s'.polls pollId).options.length ∧
      (s'.tallies pollId).counts.sum = (s'.polls pollId).voteCount) ∧
    (∀ ops pollId,
      ((run env initState ops).polls pollId).finalized = true →
      ((run env initState ops).tallies pollId).counts.length =
        ((run env initState ops).polls pollId).options.length) := by
  constructor
  · intro s pollId bytes dproof s' hok
    obtain ⟨-, -, -, -, counts, hdec, -, hpoll, -, -, -, htalp, -, -, -⟩ :=
      resolvePollCallback_ok env s pollId bytes dproof s' hok
    obtain ⟨hlen, hsum, -, -⟩ := decodeCounts_ok_spec bytes _ _ counts hdec
    rw [htalp, hpoll]
    exact ⟨by simpa using hlen, by simpa using hsum⟩
  · intro ops pollId hfin
    exact (inv_reachable env ops).tally_len pollId hfin

/-- Claim C5 witness: the freshly finalized poll 1 satisfies both
equalities, and the reachable-state length equality holds for the
finalized short-bundle run. -/
theorem C5_witness :
    ((sFinalized.tallies 1).counts.length = (sFinalized.polls 1).options.length ∧
      (sFinalized.tallies 1).counts.sum = (sFinalized.polls 1).voteCount) ∧
    (sShortBundle.tallies 1).counts.length =
      (sShortBundle.polls 1).options.length := by
  exact ⟨(C5_amended env0).1 sRevealed 1 bundle0 [] sFinalized rfl,
         (C5_amended env0).2 opsShortBundle 1 (by decide)⟩


end EncryptedPolls
